import Mathlib

/-!
Verification development for the ChowGPT data-pipeline scripts.

The definitions below are a shallow embedding of
`backend/vector_pipeline/restaurant_vector_pipeline.py` (class
`RestaurantVectorPipeline`) and of
`backend/restaurant_data/json_to_csv_converter.py` (`convert_json_to_csv`).

Modelling conventions:
* Python strings become Lean `String`; the Python operations used by the
  scripts (`in`, `.lower()`, `.strip()`, `.capitalize()`, `", ".join`,
  `re.findall`) are re-implemented below over `List Char` so that every
  definition is executable and kernel-computable.  Python's `\s` and
  `str.strip()` handle all unicode whitespace; the scripts only ever meet
  ASCII whitespace, which is what `isPyWs` covers.
* Star scores (`totalScore`) are floats in the source, compared only against
  the thresholds 4.5 / 4.0 / 3.5 / 0; they are modelled as naturals counted
  in tenths of a star (45 ↔ 4.5), which preserves all those comparisons
  exactly.  Per-review `rating` values are small integers in the data and
  are modelled as `Nat`.
* Token counting is delegated to `tiktoken` in the source; the chunk
  builder only consumes an integer count per string, so it is modelled as
  an arbitrary parameter `tok : String → Nat`.
* Network calls (`requests.get`, Pinecone upserts) are modelled by explicit
  oracles / client functions; `time.sleep` delays are recorded as data.
* Python dicts read with `.get` become structures with explicit fields
  (missing key ≡ default), review/restaurant JSON payloads become the
  structures `Restaurant`, `Detail`, `Review`; `None`-able fields become
  `Option`.
-/

/-- ASCII whitespace, as matched by Python's `str.strip()` and `\s` on the
ASCII range. -/
def isPyWs (c : Char) : Bool :=
  c == ' ' || c == '\t' || c == '\n' || c == '\r' || c == '\x0b' || c == '\x0c'

/-- Python `str.lower()` (ASCII case mapping). -/
def lowerStr (s : String) : String :=
  String.mk (s.data.map Char.toLower)

/-- Python `str.strip()` (strip leading and trailing whitespace). -/
def trimStr (s : String) : String :=
  String.mk (((s.data.dropWhile isPyWs).reverse.dropWhile isPyWs).reverse)

/-- `startsWith pat s` holds when `pat` is an initial segment of `s`. -/
def startsWith : List Char → List Char → Bool
  | [], _ => true
  | _ :: _, [] => false
  | p :: ps, c :: cs => p == c && startsWith ps cs

/-- `hasSubstr pat s` holds when `pat` occurs contiguously inside `s`. -/
def hasSubstr (pat : List Char) : List Char → Bool
  | [] => pat.isEmpty
  | s@(_ :: cs) => startsWith pat s || hasSubstr pat cs

/-- Python's `pat in s` substring test. -/
def strContains (s pat : String) : Bool :=
  hasSubstr pat.data s.data

/-- Python's `sep.join(parts)`. -/
def strJoin (sep : String) : List String → String
  | [] => ""
  | [x] => x
  | x :: xs => x ++ sep ++ strJoin sep xs

/-- Python's `s.split(sep)` for a non-empty separator, fuelled so that the
kernel can evaluate it (the fuel is the length of the string, which is
always enough since each step consumes at least one character). -/
def splitFuel (sep : List Char) : Nat → List Char → List Char → List (List Char)
  | 0, s, acc => [acc.reverse ++ s]
  | _ + 1, [], acc => [acc.reverse]
  | fuel + 1, c :: cs, acc =>
    if startsWith sep (c :: cs) && !sep.isEmpty then
      acc.reverse :: splitFuel sep fuel ((c :: cs).drop sep.length) []
    else
      splitFuel sep fuel cs (c :: acc)

/-- Python's `s.split(sep)` (non-overlapping, left to right). -/
def splitPieces (sep s : String) : List String :=
  (splitFuel sep.data s.data.length s.data []).map String.mk

/-- Lexicographic (code-point) comparison on character lists; this is the
order Python's `sorted` uses on strings. -/
def lexLe : List Char → List Char → Bool
  | [], _ => true
  | _ :: _, [] => false
  | a :: as, b :: bs =>
    if a.toNat < b.toNat then true
    else if b.toNat < a.toNat then false
    else lexLe as bs

/-- Lexicographic (code-point) order on strings. -/
def strLe (a b : String) : Bool :=
  lexLe a.data b.data

/-- Value of a decimal digit string (`int` applied to a run of digits). -/
def digitsToNat (ds : List Char) : Nat :=
  ds.foldl (fun n c => n * 10 + (c.toNat - 48)) 0

/-- Scanner state for `re.findall(r'R\s*(\d+)', s)`. -/
inductive RScan where
  | idle : RScan
  | sawR : RScan
  | num (acc : List Char) : RScan

/-- One-pass scanner equivalent to `re.findall(r'R\s*(\d+)', s)`: an `R`,
optional whitespace, then a maximal digit run; matches do not overlap and
scanning resumes after each match.  (Whitespace skipped during a failed
attempt can neither be an `R` nor start a match, so not rescanning it is
faithful to the regex engine.) -/
def scanRAux : List Char → RScan → List Nat
  | [], RScan.num acc => [digitsToNat acc.reverse]
  | [], _ => []
  | c :: rest, RScan.idle =>
    if c == 'R' then scanRAux rest RScan.sawR else scanRAux rest RScan.idle
  | c :: rest, RScan.sawR =>
    if isPyWs c then scanRAux rest RScan.sawR
    else if c.isDigit then scanRAux rest (RScan.num [c])
    else if c == 'R' then scanRAux rest RScan.sawR
    else scanRAux rest RScan.idle
  | c :: rest, RScan.num acc =>
    if c.isDigit then scanRAux rest (RScan.num (c :: acc))
    else if c == 'R' then digitsToNat acc.reverse :: scanRAux rest RScan.sawR
    else digitsToNat acc.reverse :: scanRAux rest RScan.idle

/-- `re.findall(r'R\s*(\d+)', s)` followed by `int(...)` on each match
(used on the `averagePrice` field). -/
def findallRDigits (s : String) : List Nat :=
  scanRAux s.data RScan.idle

/-- Scanner for `re.findall(r'(\d+)', s)`: maximal digit runs. -/
def scanDsAux : List Char → Option (List Char) → List Nat
  | [], none => []
  | [], some acc => [digitsToNat acc.reverse]
  | c :: rest, none =>
    if c.isDigit then scanDsAux rest (some [c]) else scanDsAux rest none
  | c :: rest, some acc =>
    if c.isDigit then scanDsAux rest (some (c :: acc))
    else digitsToNat acc.reverse :: scanDsAux rest none

/-- `re.findall(r'(\d+)', s)` followed by `int(...)` on each match
(used on the `Price per person` review context). -/
def findallDigits (s : String) : List Nat :=
  scanDsAux s.data none

/-- Python `str.capitalize()`: first character upper-cased, the rest
lower-cased. -/
def pyCapitalize (s : String) : String :=
  match s.data with
  | [] => ""
  | c :: cs => String.mk (c.toUpper :: cs.map Char.toLower)

/-- Rendering of a tenths-of-a-star score (45 ↦ "4.5"), standing in for
Python's float formatting in the one sentence that prints the score. -/
def scoreStr (n : Nat) : String :=
  toString (n / 10) ++ "." ++ toString (n % 10)

/-! ## Data model -/

/-- One review record from the detail endpoint.  `reviewContext` is the
structured free-text key/value map (e.g. "Parking space", "Price per
person"); Python's dict has unique keys, looked up here with
`List.lookup`. -/
structure Review where
  text : String
  rating : Nat
  reviewerName : String
  reviewContext : List (String × String)
deriving DecidableEq, Repr

/-- One `openingHours` entry: day name plus free-text hours string. -/
structure DayHours where
  day : String
  hours : String
deriving DecidableEq, Repr

/-- The `serviceOptions` flag map; Python reads each flag with
`.get(key)` / `.get(key, False)`, so a missing key is `false`. -/
structure ServiceOptions where
  dineIn : Bool
  takeaway : Bool
  delivery : Bool
  reservations : Bool
  wheelchairAccessible : Bool
  goodForKids : Bool
  goodForGroups : Bool
  acceptsCreditCards : Bool
  hasWifi : Bool
  outdoorSeating : Bool
  liveMusic : Bool
  hasParking : Bool
deriving DecidableEq, Repr

/-- Detailed restaurant data fetched per restaurant (reviews, hours,
service options).  `averagePrice` is `None`-able in the source. -/
structure Detail where
  description : String
  openingHours : List DayHours
  serviceOptions : ServiceOptions
  phone : String
  website : String
  reviews : List Review
  averagePrice : Option String
  price : String
deriving DecidableEq, Repr

/-- Restaurant summary from the paginated list endpoint.  `totalScore` is
in tenths of a star (45 ↔ 4.5). -/
structure Restaurant where
  id : String
  title : String
  categoryName : String
  categories : List String
  neighborhood : String
  address : String
  totalScore : Nat
  reviewsCount : Nat
  description : String
deriving DecidableEq, Repr

/-- A typed metadata value (the source stores strings, numbers, booleans
and string lists in chunk metadata). -/
inductive MValue where
  | str (s : String)
  | nat (n : Nat)
  | bool (b : Bool)
  | strList (l : List String)
deriving DecidableEq, Repr

/-- A LangChain `Document`: page content plus a metadata record. -/
structure Document where
  page_content : String
  metadata : List (String × MValue)
deriving DecidableEq, Repr

/-! ## Intelligence extractors
(`extract_parking_intelligence`, `extract_price_intelligence`,
`extract_experience_themes`, lines 192–304 of the pipeline source) -/

/-- Per-review body of the loop in `extract_parking_intelligence`: first the
structured "Parking space" context is classified (an `if`/`elif` chain on the
lowered value), then the free review text is scanned for parking phrases.
State is `(parking_mentions, parking_difficulty)`. -/
def parkingStep (st : List String × String) (rv : Review) : List String × String :=
  let text := lowerStr rv.text
  let st1 :=
    match rv.reviewContext.lookup "Parking space" with
    | some v =>
      let ps := lowerStr v
      if strContains ps "plenty" then
        (st.1 ++ ["has plenty of parking available"], "easy")
      else if strContains ps "difficult" then
        (st.1 ++ ["parking can be challenging to find"], "difficult")
      else if strContains ps "somewhat difficult" then
        (st.1 ++ ["parking is somewhat limited"], "moderate")
      else st
    | none => st
  let mentions :=
    if ["parking", "valet", "park"].any (fun w => strContains text w) then
      if strContains text "easy parking" || strContains text "plenty parking" then
        st1.1 ++ ["visitors mention easy parking"]
      else if strContains text "difficult parking" || strContains text "hard to park" then
        st1.1 ++ ["visitors report parking challenges"]
      else if strContains text "valet" then
        st1.1 ++ ["offers valet parking service"]
      else st1.1
    else st1.1
  (mentions, st1.2)

/-- `extract_parking_intelligence(detailed_data)`: returns
`(parking_desc, parking_difficulty)`. -/
def extract_parking_intelligence (d : Detail) : String × String :=
  let st := d.reviews.foldl parkingStep ([], "unknown")
  let mentions :=
    if d.serviceOptions.hasParking then st.1 ++ ["provides parking facilities"] else st.1
  (if mentions = [] then "parking information not specified" else strJoin ". " mentions,
   st.2)

/-- Per-review body of the price loop in `extract_price_intelligence`:
a "Price per person" context always contributes a sentence; its numbers are
taken for `price_min`/`price_max` only while `price_min == 0` (max defaults
to min + 50 when a single number is present).
State is `(price_mentions, price_min, price_max)`. -/
def priceStep (st : List String × Nat × Nat) (rv : Review) : List String × Nat × Nat :=
  match rv.reviewContext.lookup "Price per person" with
  | some v =>
    let mentions := st.1 ++ ["diners report spending " ++ v]
    let nums := findallDigits v
    if nums ≠ [] ∧ st.2.1 = 0 then
      (mentions, nums.headD 0,
        if 2 ≤ nums.length then nums.getD 1 0 else nums.headD 0 + 50)
    else (mentions, st.2.1, st.2.2)
  | none => st

/-- `extract_price_intelligence(detailed_data)`: returns
`(price_desc, price_min, price_max)`.  The `averagePrice` field is parsed
first with pattern `R\s*(\d+)` (max defaults to min + 100 when only one
number is present); review contexts are folded afterwards. -/
def extract_price_intelligence (d : Detail) : String × Nat × Nat :=
  let mentions0 : List String :=
    if d.price ≠ "" then ["price range " ++ d.price] else []
  let st1 : List String × Nat × Nat :=
    match d.averagePrice with
    | some ap =>
      if ap ≠ "" then
        let mentions := mentions0 ++ ["typical cost " ++ ap]
        let nums := findallRDigits ap
        if nums ≠ [] then
          (mentions, nums.headD 0,
            if 2 ≤ nums.length then nums.getD 1 0 else nums.headD 0 + 100)
        else (mentions, 0, 0)
      else (mentions0, 0, 0)
    | none => (mentions0, 0, 0)
  let st2 := d.reviews.foldl priceStep st1
  (if st2.1 = [] then "pricing information varies" else strJoin ". " st2.1,
   st2.2.1, st2.2.2)

/-- Keyword families used by `extract_experience_themes`. -/
def excellenceWords : List String := ["excellent", "amazing", "outstanding", "perfect"]

def serviceWords : List String := ["service", "staff", "friendly", "helpful"]

def foodWords : List String := ["delicious", "tasty", "fresh", "quality"]

def atmosphereWords : List String := ["atmosphere", "ambiance", "cozy", "romantic"]

def valueWords : List String := ["value", "worth", "reasonable", "affordable"]

/-- Per-review body of `extract_experience_themes`: a high-rated review
(rating ≥ 4) appends one canned sentence per keyword family whose trigger
words occur in the lowered text.  State is
`(themes, positive_words, service_mentions, food_mentions)`. -/
def themesStep (st : List String × List String × List String × List String)
    (rv : Review) : List String × List String × List String × List String :=
  let text := lowerStr rv.text
  if 4 ≤ rv.rating then
    let positive :=
      if excellenceWords.any (fun w => strContains text w) then
        st.2.1 ++ ["consistently receives excellent reviews"]
      else st.2.1
    let service :=
      if serviceWords.any (fun w => strContains text w) then
        st.2.2.1 ++ ["praised for friendly service"]
      else st.2.2.1
    let food :=
      if foodWords.any (fun w => strContains text w) then
        st.2.2.2 ++ ["food quality highly rated"]
      else st.2.2.2
    let themes :=
      if atmosphereWords.any (fun w => strContains text w) then
        st.1 ++ ["creates a welcoming atmosphere"]
      else st.1
    let themes :=
      if valueWords.any (fun w => strContains text w) then
        themes ++ ["offers good value for money"]
      else themes
    (themes, positive, service, food)
  else st

/-- `extract_experience_themes(reviews)`: scans the first 15 reviews and
joins up to 5 distinct canned sentences, or a default filler.  The source
deduplicates via `list(set(...))`, whose iteration order Python leaves
unspecified; `List.dedup` is one concrete choice of that order. -/
def extract_experience_themes (reviews : List Review) : String :=
  let st := (reviews.take 15).foldl themesStep ([], [], [], [])
  let allThemes := (st.1 ++ st.2.1 ++ st.2.2.1 ++ st.2.2.2).dedup
  if allThemes = [] then "popular dining destination"
  else strJoin ". " (allThemes.take 5)

/-! ## Chunk builders (lines 306–735 of the pipeline source) -/

/-- `create_overview_chunk(restaurant, detailed_data)`. -/
def create_overview_chunk (r : Restaurant) (d : Detail) : Document :=
  let description := if d.description ≠ "" then d.description else r.description
  let parts :=
    [r.title ++ " is a " ++ lowerStr r.categoryName ++ " located in " ++
      r.neighborhood ++ ", Cape Town."] ++
    (if description ≠ "" ∧ trimStr description ≠ "" then
      ["Restaurant description: " ++ trimStr description] else []) ++
    (if 1 < r.categories.length then
      (let otherCategories := r.categories.filter (fun cat => cat ≠ r.categoryName)
       if otherCategories ≠ [] then
         ["This establishment also serves " ++
           lowerStr (strJoin ", " (otherCategories.take 3)) ++ " cuisine."]
       else [])
     else []) ++
    (if 0 < r.totalScore then
      ["Highly rated with " ++ scoreStr r.totalScore ++ " stars from " ++
        toString r.reviewsCount ++ " customer reviews."] else []) ++
    (if 45 ≤ r.totalScore then
      ["Consistently recognized as an exceptional dining destination."]
     else if 40 ≤ r.totalScore then
      ["Well-regarded for quality and service."]
     else []) ++
    (if r.address ≠ "" then ["Conveniently located at " ++ r.address ++ "."] else [])
  { page_content := strJoin " " parts
    metadata :=
      [("restaurant_id", MValue.str r.id),
       ("chunk_type", MValue.str "overview"),
       ("name", MValue.str r.title),
       ("neighborhood", MValue.str r.neighborhood),
       ("cuisine_primary", MValue.str r.categoryName),
       ("cuisine_tags", MValue.strList (r.categories.take 5)),
       ("rating", MValue.nat r.totalScore),
       ("review_count", MValue.nat r.reviewsCount),
       ("address", MValue.str r.address)] }

/-- The "open late" trigger tokens scanned over each day's hours text. -/
def lateTokens : List String := ["10 pm", "11 pm", "12 am", "1 am"]

/-- The "open early" trigger tokens. -/
def earlyTokens : List String := ["7 am", "8 am", "9 am"]

/-- Days whose lowered hours text contains a late token (`late_hours`). -/
def lateDays (d : Detail) : List String :=
  (d.openingHours.filter fun di =>
    lateTokens.any fun t => strContains (lowerStr di.hours) t).map DayHours.day

/-- Days whose lowered hours text contains an early token (`early_hours`). -/
def earlyDays (d : Detail) : List String :=
  (d.openingHours.filter fun di =>
    earlyTokens.any fun t => strContains (lowerStr di.hours) t).map DayHours.day

/-- `create_operational_chunk(restaurant, detailed_data)`.  In the source,
`late_hours`/`early_hours` only exist as locals when `opening_hours` is
non-empty and the metadata reads them through a `locals()` guard defaulting
to `False`; the `if d.openingHours = []` tests mirror that guard. -/
def create_operational_chunk (r : Restaurant) (d : Detail) : Document :=
  let so := d.serviceOptions
  let hoursParts : List String :=
    if d.openingHours = [] then []
    else
      (if lateDays d ≠ [] then
        ["Open late for dining on " ++ strJoin ", " ((lateDays d).take 3) ++ "."]
       else []) ++
      (if earlyDays d ≠ [] then
        ["Early dining available on " ++ strJoin ", " ((earlyDays d).take 3) ++ "."]
       else []) ++
      ["Operating hours vary by day, with full weekly schedule available."]
  let serviceFeatures :=
    (if so.dineIn then ["dine-in service"] else []) ++
    (if so.takeaway then ["takeaway orders"] else []) ++
    (if so.delivery then ["delivery service"] else []) ++
    (if so.reservations then ["accepts reservations"] else [])
  let accessibilityFeatures :=
    (if so.wheelchairAccessible then ["wheelchair accessible"] else []) ++
    (if so.goodForKids then ["family-friendly with children welcome"] else []) ++
    (if so.goodForGroups then ["accommodates large groups"] else [])
  let amenityFeatures :=
    (if so.acceptsCreditCards then ["accepts credit cards"] else []) ++
    (if so.hasWifi then ["provides Wi-Fi"] else []) ++
    (if so.outdoorSeating then ["outdoor seating available"] else [])
  let parts :=
    [r.title ++ " operational information:"] ++ hoursParts ++
    (if serviceFeatures ≠ [] then
      ["Offers " ++ strJoin ", " serviceFeatures ++ "."] else []) ++
    (if accessibilityFeatures ≠ [] then
      ["Features include " ++ strJoin ", " accessibilityFeatures ++ "."] else []) ++
    (if amenityFeatures ≠ [] then
      ["Additional amenities: " ++ strJoin ", " amenityFeatures ++ "."] else []) ++
    (if d.phone ≠ "" then ["Contact available at " ++ d.phone ++ "."] else []) ++
    (if d.website ≠ "" then ["Website and online information available."] else [])
  { page_content := strJoin " " parts
    metadata :=
      [("restaurant_id", MValue.str r.id),
       ("chunk_type", MValue.str "operational"),
       ("name", MValue.str r.title),
       ("open_late",
         MValue.bool (if d.openingHours = [] then false else decide (lateDays d ≠ []))),
       ("open_early",
         MValue.bool (if d.openingHours = [] then false else decide (earlyDays d ≠ []))),
       ("accepts_reservations", MValue.bool so.reservations),
       ("delivery_available", MValue.bool so.delivery),
       ("takeaway_available", MValue.bool so.takeaway),
       ("wheelchair_accessible", MValue.bool so.wheelchairAccessible),
       ("family_friendly", MValue.bool so.goodForKids),
       ("good_for_groups", MValue.bool so.goodForGroups),
       ("outdoor_seating", MValue.bool so.outdoorSeating),
       ("has_wifi", MValue.bool so.hasWifi)] }

/-- Neighborhood keyword sets used by `create_parking_location_chunk`. -/
def waterfrontAreas : List String := ["waterfront", "harbour", "sea"]

def cityAreas : List String := ["city", "cbd", "centre"]

def upscaleAreas : List String := ["kloof", "gardens", "tamboerskloof"]

def touristAreas : List String := ["waterfront", "camps bay", "sea point"]

def majorStreets : List String := ["long street", "kloof street", "bree street"]

/-- `create_parking_location_chunk(restaurant, detailed_data)`. -/
def create_parking_location_chunk (r : Restaurant) (d : Detail) : Document :=
  let nb := lowerStr r.neighborhood
  let pk := extract_parking_intelligence d
  let parts :=
    [r.title ++ " location and parking information:"] ++
    (if r.neighborhood ≠ "" then
      ["Situated in " ++ r.neighborhood ++ ", a popular dining area in Cape Town."] ++
      (if waterfrontAreas.any (fun a => strContains nb a) then
        ["Located in a scenic waterfront location with tourist attractions nearby."]
       else if cityAreas.any (fun a => strContains nb a) then
        ["Centrally located in the city center with business district access."]
       else if upscaleAreas.any (fun a => strContains nb a) then
        ["Nestled in an upscale residential area with trendy dining scene."]
       else [])
     else []) ++
    [pyCapitalize pk.1 ++ "."] ++
    (if r.address ≠ "" then
      (if majorStreets.any (fun st => strContains (lowerStr r.address) st) then
        ["Located on a major Cape Town street with good accessibility."]
       else [])
     else [])
  { page_content := strJoin " " parts
    metadata :=
      [("restaurant_id", MValue.str r.id),
       ("chunk_type", MValue.str "parking_location"),
       ("name", MValue.str r.title),
       ("neighborhood", MValue.str r.neighborhood),
       ("parking_difficulty", MValue.str pk.2),
       ("has_parking", MValue.bool (pk.2 == "easy" || pk.2 == "moderate")),
       ("city_center", MValue.bool (cityAreas.any (fun a => strContains nb a))),
       ("waterfront", MValue.bool (waterfrontAreas.any (fun a => strContains nb a))),
       ("tourist_area", MValue.bool (touristAreas.any (fun a => strContains nb a)))] }

/-- `create_features_chunk(restaurant, detailed_data)`. -/
def create_features_chunk (r : Restaurant) (d : Detail) : Document :=
  let so := d.serviceOptions
  let featureSentences :=
    (if so.dineIn && so.outdoorSeating then
      ["offers both indoor dining and outdoor seating options"]
     else if so.outdoorSeating then ["features pleasant outdoor seating"]
     else if so.dineIn then ["provides comfortable indoor dining"]
     else []) ++
    (if so.delivery && so.takeaway then
      ["convenient delivery and takeaway services available"]
     else if so.delivery then ["offers delivery service to your location"]
     else if so.takeaway then ["quick takeaway service for busy schedules"]
     else []) ++
    (if so.goodForGroups && so.acceptsCreditCards then
      ["perfect for group dining with easy payment options"]
     else if so.goodForGroups then ["accommodates large parties and celebrations"]
     else []) ++
    (if so.goodForKids then ["family-friendly environment welcoming children"] else []) ++
    (if so.hasWifi then ["provides complimentary Wi-Fi for guests"] else []) ++
    (if so.liveMusic then ["features live music entertainment"] else []) ++
    (if so.acceptsCreditCards then ["accepts major credit cards for convenience"] else [])
  let parts :=
    [r.title ++ " features and specialties:"] ++
    (if r.categories ≠ [] then
      (if 1 < r.categories.length then
        ["Specializes in " ++ lowerStr (r.categories.headD "") ++ " with " ++
          lowerStr (strJoin ", " ((r.categories.drop 1).take 2)) ++ " influences."]
       else
        ["Authentic " ++ lowerStr (r.categories.headD "") ++ " cuisine prepared with care."])
     else []) ++
    (if featureSentences ≠ [] then
      ["This establishment " ++ strJoin ", " (featureSentences.take 4) ++ "."] else []) ++
    (if so.goodForGroups && so.goodForKids then
      ["Creates a lively, welcoming atmosphere suitable for all ages."]
     else if so.outdoorSeating && !so.liveMusic then
      ["Offers a relaxed dining atmosphere with pleasant ambiance."]
     else if so.liveMusic then
      ["Vibrant entertainment venue with energetic atmosphere."]
     else [])
  { page_content := strJoin " " parts
    metadata :=
      [("restaurant_id", MValue.str r.id),
       ("chunk_type", MValue.str "features"),
       ("name", MValue.str r.title),
       ("cuisine_tags", MValue.strList (r.categories.take 5)),
       ("dining_style", MValue.str (if so.goodForKids then "casual" else "upscale")),
       ("entertainment", MValue.bool so.liveMusic),
       ("romantic", MValue.bool (so.outdoorSeating && !so.goodForKids)),
       ("business_friendly", MValue.bool (so.hasWifi && so.acceptsCreditCards))] }

/-! ## Review chunking (`create_review_chunks`, lines 501–610) -/

/-- The formatted header `"Review by <name> (<rating>/5): "` that
`create_review_chunks` puts in front of each stripped review text. -/
def reviewTag (rv : Review) : String :=
  "Review by " ++ rv.reviewerName ++ " (" ++ toString rv.rating ++ "/5): "

/-- The formatted review entry
`"Review by <name> (<rating>/5): <stripped text>"`. -/
def formatReview (rv : Review) : String :=
  reviewTag rv ++ trimStr rv.text

/-- The reviews whose stripped text is non-empty, in input order. -/
def nonEmptyReviews (d : Detail) : List Review :=
  d.reviews.filter fun rv => trimStr rv.text != ""

/-- `all_review_texts`: the formatted entries of the reviews whose stripped
text is non-empty, in input order. -/
def nonEmptyEntries (d : Detail) : List String :=
  d.reviews.filterMap fun rv =>
    if trimStr rv.text = "" then none else some (formatReview rv)

/-- The stripped non-empty review texts themselves, in input order. -/
def nonEmptyTexts (d : Detail) : List String :=
  d.reviews.filterMap fun rv =>
    if trimStr rv.text = "" then none else some (trimStr rv.text)

/-- `base_content`: the shared preamble of every review chunk (title
sentence, rating-tier sentence, experience themes, price description). -/
def base_content (r : Restaurant) (d : Detail) : String :=
  let themes := extract_experience_themes d.reviews
  let priceDesc := (extract_price_intelligence d).1
  let parts :=
    [r.title ++ " customer reviews and dining experiences:"] ++
    (if 45 ≤ r.totalScore then
      ["Exceptional dining experience with outstanding customer satisfaction."]
     else if 40 ≤ r.totalScore then
      ["High-quality dining experience with positive customer feedback."]
     else if 35 ≤ r.totalScore then
      ["Good dining option with generally satisfied customers."]
     else []) ++
    (if themes ≠ "" then [pyCapitalize themes ++ "."] else []) ++
    (if priceDesc ≠ "" then [pyCapitalize priceDesc ++ "."] else [])
  strJoin " " parts

/-- The greedy packing loop of `create_review_chunks`, at the level of the
per-chunk lists of formatted review entries.  State is
`(chunks-so-far, current_chunk_reviews, current_chunk_tokens)`; a new chunk
is flushed exactly when `current_chunk_tokens + review_tokens >
max_chunk_tokens` and the current chunk is non-empty, and the trailing
non-empty current chunk is flushed at the end. -/
def packGo (tok : String → Nat) (maxTok baseTokens : Nat) :
    List String → List (List String) → List String → Nat → List (List String)
  | [], groups, cur, _ => if cur = [] then groups else groups ++ [cur]
  | e :: rest, groups, cur, curTokens =>
    if maxTok < curTokens + tok e ∧ cur ≠ [] then
      packGo tok maxTok baseTokens rest (groups ++ [cur]) [e] (baseTokens + tok e)
    else
      packGo tok maxTok baseTokens rest groups (cur ++ [e]) (curTokens + tok e)

/-- The per-chunk entry lists produced by the greedy packing of
`create_review_chunks` (`max_chunk_tokens = 800`, running count seeded with
the preamble's token count). -/
def review_groups (tok : String → Nat) (r : Restaurant) (d : Detail) :
    List (List String) :=
  packGo tok 800 (tok (base_content r d)) (nonEmptyEntries d) [] []
    (tok (base_content r d))

/-- One review-chunk `Document`: content is the preamble, a space, and the
entries joined by `" | "`; the metadata record is the one built at each
flush site of `create_review_chunks`. -/
def reviewDoc (r : Restaurant) (d : Detail) (pmin pmax : Nat) (base ct : String)
    (g : List String) : Document :=
  { page_content := base ++ " " ++ strJoin " | " g
    metadata :=
      [("restaurant_id", MValue.str r.id),
       ("chunk_type", MValue.str ct),
       ("name", MValue.str r.title),
       ("rating", MValue.nat r.totalScore),
       ("price_min", MValue.nat pmin),
       ("price_max", MValue.nat pmax),
       ("high_rated", MValue.bool (decide (40 ≤ r.totalScore))),
       ("exceptional", MValue.bool (decide (45 ≤ r.totalScore))),
       ("affordable", MValue.bool (decide (0 < pmax ∧ pmax ≤ 300))),
       ("mid_range", MValue.bool (decide (200 ≤ pmin ∧ pmax ≤ 500))),
       ("upscale", MValue.bool (decide (400 ≤ pmin))),
       ("review_count", MValue.nat g.length),
       ("total_reviews", MValue.nat d.reviews.length)] }

/-- Builds the review-chunk documents from the packed groups.  In the
source, a chunk flushed mid-loop is tagged `reviews_part_{len(chunks)+1}`
(its 1-based position) and the final flush is tagged the same way when
earlier chunks exist, else `reviews`; with `k` total groups that is
`reviews` for `k = 1` and `reviews_part_1 … reviews_part_k` otherwise. -/
def buildReviewDocs (r : Restaurant) (d : Detail) (pmin pmax : Nat)
    (base : String) (k : Nat) : Nat → List (List String) → List Document
  | _, [] => []
  | i, g :: gs =>
    reviewDoc r d pmin pmax base
      (if k = 1 then "reviews" else "reviews_part_" ++ toString (i + 1)) g ::
      buildReviewDocs r d pmin pmax base k (i + 1) gs

/-- `create_review_chunks(restaurant, detailed_data)`: empty when there are
no reviews or no review has non-empty stripped text; otherwise the packed
groups rendered as documents. -/
def create_review_chunks (tok : String → Nat) (r : Restaurant) (d : Detail) :
    List Document :=
  if d.reviews = [] then []
  else if nonEmptyEntries d = [] then []
  else
    buildReviewDocs r d (extract_price_intelligence d).2.1
      (extract_price_intelligence d).2.2 (base_content r d)
      (review_groups tok r d).length 0 (review_groups tok r d)

/-- `process_restaurant(restaurant)` given the already-fetched detail
result: with no detail (`None`, which is how a failed fetch is reported)
the restaurant is skipped with zero chunks; otherwise the five chunk
builders run in their fixed order. -/
def process_restaurant (tok : String → Nat) (r : Restaurant) :
    Option Detail → List Document
  | none => []
  | some d =>
    [create_overview_chunk r d, create_operational_chunk r d,
     create_parking_location_chunk r d] ++
    create_review_chunks tok r d ++ [create_features_chunk r d]

/-! ## Source fetcher (`fetch_restaurant_data`, `fetch_detailed_restaurant`,
lines 121–190) -/

/-- Outcome of one detail request: HTTP 429, any other error (a non-2xx
status raised by `raise_for_status` or a transport exception), or a parsed
payload. -/
inductive FetchResp (α : Type) where
  | rateLimited : FetchResp α
  | err : FetchResp α
  | ok (payload : α) : FetchResp α
deriving DecidableEq, Repr

/-- The retry loop of `fetch_detailed_restaurant` (`max_retries = 5`,
`retry_delay = 5`): `oracle n` is the outcome of attempt `n` (0-based).
Returns the payload (if any attempt succeeds) together with the list of
backoff sleeps `retry_delay * 2 ** attempt` performed between attempts.
On the last attempt both a 429 (which falls through to
`raise_for_status`) and any other error are caught and turn into `none` —
no exception escapes. -/
def fetchAttempts {α : Type} (oracle : Nat → FetchResp α) :
    Nat → Nat → Option α × List Nat
  | _, 0 => (none, [])
  | attempt, remaining + 1 =>
    match oracle attempt with
    | FetchResp.ok p => (some p, [])
    | FetchResp.rateLimited =>
      if remaining = 0 then (none, [])
      else
        let rec' := fetchAttempts oracle (attempt + 1) remaining
        (rec'.1, 5 * 2 ^ attempt :: rec'.2)
    | FetchResp.err =>
      if remaining = 0 then (none, [])
      else
        let rec' := fetchAttempts oracle (attempt + 1) remaining
        (rec'.1, 5 * 2 ^ attempt :: rec'.2)

/-- `fetch_detailed_restaurant(restaurant_id)`: five attempts starting at
attempt 0.  (The fixed 0.5-unit pause after a success is an inter-request
delay, not part of the backoff schedule recorded here.) -/
def fetch_detailed_restaurant {α : Type} (oracle : Nat → FetchResp α) :
    Option α × List Nat :=
  fetchAttempts oracle 0 5

/-- The pagination loop of `fetch_restaurant_data`: the server holds the
list `s`, reports `total = s.length`, and answers a request at `offset`
with the page `(s.drop offset).take limit`.  Accumulates pages and records
the requested offsets; stops on an empty page, once the accumulated count
reaches the reported total, or when a page comes back shorter than the
requested limit.  The fuel argument (always taken ample) only forces
termination of the unbounded `while True`. -/
def fetchGo {α : Type} (s : List α) (limit : Nat) :
    Nat → Nat → List α → List Nat → List α × List Nat
  | 0, _, acc, reqs => (acc, reqs)
  | fuel + 1, offset, acc, reqs =>
    let page := (s.drop offset).take limit
    if page.isEmpty then (acc, reqs ++ [offset])
    else if s.length ≤ (acc ++ page).length ∨ page.length < limit then
      (acc ++ page, reqs ++ [offset])
    else fetchGo s limit fuel (offset + limit) (acc ++ page) (reqs ++ [offset])

/-- `fetch_restaurant_data()` against a consistent server holding `s`:
`limit = 50`, starting offset 0.  Returns the accumulated summaries and
the offsets of the issued list requests. -/
def fetch_restaurant_data {α : Type} (s : List α) : List α × List Nat :=
  fetchGo s 50 (s.length + 1) 0 [] []

/-! ## Batch upserter (`upsert_documents`, lines 737–754) -/

/-- The batch slicing of `upsert_documents`: Python's
`for i in range(0, len(documents), batch_size): documents[i:i+batch_size]`,
guarded by the early return on an empty document list.  Fuel is the
document count, ample for any positive batch size. -/
def upsertGo {α : Type} (bs : Nat) : Nat → List α → List (List α)
  | 0, _ => []
  | _ + 1, [] => []
  | fuel + 1, l@(_ :: _) => l.take bs :: upsertGo bs fuel (l.drop bs)

/-- The list of batches submitted by `upsert_documents(documents,
batch_size)`, in submission order. -/
def upsert_documents {α : Type} (docs : List α) (bs : Nat) : List (List α) :=
  upsertGo bs docs.length docs

/-- Submitting the batches to the vector-store client
(`self.vector_store.add_documents(batch)`): the first raised error is
re-raised to the caller (the `except` block re-raises), otherwise the
number of successful batch calls is returned. -/
def runBatches {α ε : Type} (client : List α → Except ε Unit) :
    List (List α) → Except ε Nat
  | [] => Except.ok 0
  | b :: rest =>
    match client b with
    | Except.error e => Except.error e
    | Except.ok _ =>
      match runBatches client rest with
      | Except.error e => Except.error e
      | Except.ok n => Except.ok (n + 1)

/-- `upsert_documents` run against a fallible client. -/
def upsert_run {α ε : Type} (client : List α → Except ε Unit) (docs : List α)
    (bs : Nat) : Except ε Nat :=
  runBatches client (upsert_documents docs bs)

/-! ## JSON → CSV converter (`convert_json_to_csv`, lines 224–266 of
`json_to_csv_converter.py`).  The converter is generic in the record
flattener: the source calls `flatten_restaurant_data`, a pure
record-to-dict function, which is the `flatten` parameter here. -/

/-- The CSV header: Python samples the first `min(100, len(restaurants))`
flattened records, unions their key sets, and sorts the union
(`sorted(list(all_columns))`). -/
def csvColumns {α β : Type} (flatten : α → List (String × β)) (rs : List α) :
    List String :=
  let sampleSize := min 100 rs.length
  List.insertionSort (fun a b => strLe a b = true)
    (((rs.take sampleSize).map (fun r => (flatten r).map Prod.fst)).flatten.dedup)

/-- The CSV data rows: one row per restaurant, each row holding exactly the
header's columns (`{col: flattened.get(col, None) for col in columns}`,
written by a `DictWriter` with `extrasaction='ignore'`). -/
def csvRows {α β : Type} (flatten : α → List (String × β)) (rs : List α) :
    List (List (String × Option β)) :=
  rs.map fun r => (csvColumns flatten rs).map fun c => (c, (flatten r).lookup c)

/-- `convert_json_to_csv(input, output)`: `none` models the early return on
an empty restaurant list (no CSV written); otherwise the written header and
rows. -/
def convert_json_to_csv {α β : Type} (flatten : α → List (String × β))
    (rs : List α) : Option (List String × List (List (String × Option β))) :=
  if rs.isEmpty then none else some (csvColumns flatten rs, csvRows flatten rs)

/-! ## Concrete evaluation inputs

Small inputs used to evaluate the embedded functions at specific points.
`charCountTok` is a concrete stand-in tokenizer (token count = character
count); the statements evaluated with it do not depend on which tokenizer
is plugged in. -/

def charCountTok : String → Nat := String.length

/-- All-false service options (a detail payload with no flags set). -/
def soNone : ServiceOptions :=
  ⟨false, false, false, false, false, false, false, false, false, false, false, false⟩

/-- Modelled from the spec: the recovery procedure claim C1 describes for a
review chunk's page content — split on the `" | "` separator and strip the
`"Review by <name> (<rating>/5): "` formatted prefix from each piece
(everything through the first occurrence of `"/5): "`). -/
def recoverTexts (content : String) : List String :=
  (splitPieces " | " content).map fun piece =>
    match splitPieces "/5): " piece with
    | [] => piece
    | [_] => piece
    | _ :: rest => strJoin "/5): " rest

def c1Review : Review := ⟨"good | bad", 5, "Ann", []⟩

def c1Detail : Detail := ⟨"", [], soNone, "", "", [c1Review], none, ""⟩

def c1EmptyDetail : Detail := ⟨"", [], soNone, "", "", [], none, ""⟩

def c1Restaurant : Restaurant := ⟨"r1", "Cafe", "Cafe", [], "", "", 0, 1, ""⟩

def c2Review : Review := ⟨"Nice", 5, "Bob", []⟩

def c2Detail : Detail := ⟨"", [], soNone, "", "", [c2Review], none, ""⟩

def c2Restaurant : Restaurant := ⟨"r2", "Bistro", "Bistro", [], "", "", 40, 1, ""⟩

def c3SomewhatDetail : Detail :=
  ⟨"", [], soNone, "", "",
    [⟨"", 3, "Pat", [("Parking space", "somewhat difficult")]⟩], none, ""⟩

def c3DifficultDetail : Detail :=
  ⟨"", [], soNone, "", "",
    [⟨"", 3, "Sam", [("Parking space", "Difficult to find a spot")]⟩], none, ""⟩

def c4FirstReview : Review := ⟨"", 4, "Kim", [("Price per person", "0")]⟩

def c4SecondReview : Review := ⟨"", 4, "Lee", [("Price per person", "R150–R250")]⟩

def c4OverwriteDetail : Detail :=
  ⟨"", [], soNone, "", "", [c4FirstReview, c4SecondReview], none, ""⟩

def c4RangeDetail : Detail := ⟨"", [], soNone, "", "", [c4SecondReview], none, ""⟩

def c4AvgDetail : Detail := ⟨"", [], soNone, "", "", [], some "R120", ""⟩

def c4BothDetail : Detail := ⟨"", [], soNone, "", "", [c4SecondReview], some "R120", ""⟩

def w5Detail : Detail := ⟨"", [], soNone, "", "", [], none, ""⟩

def w5Restaurant : Restaurant := ⟨"w5", "Spot", "Deli", [], "", "", 0, 0, ""⟩

def w9Detail : Detail :=
  ⟨"", [⟨"Friday", "5 PM to 11 PM"⟩], soNone, "", "", [], none, ""⟩

def w9Restaurant : Restaurant := ⟨"w9", "Grill", "Grill", [], "", "", 0, 0, ""⟩

/-- A small record flattener for evaluating the CSV converter. -/
def natFlat : Nat → List (String × Nat) := fun n => [(toString n, n)]

/-- A concrete vector-store client that fails exactly on the batch whose
first document is 50 — the second batch of `List.range 120` sliced in
fifties — and succeeds on every other batch. -/
def w8Client : List Nat → Except Nat Unit :=
  fun b => if b.headD 0 = 50 then Except.error 7 else Except.ok ()

/-! ## Helper lemmas: substrings, joins, lexicographic order -/

theorem startsWith_iff (p : List Char) : ∀ s : List Char,
    startsWith p s = true ↔ ∃ t, s = p ++ t := by
  induction p with
  | nil => intro s; simp [startsWith]
  | cons a as ih =>
    intro s
    cases s with
    | nil =>
      simp only [startsWith, List.cons_append]
      constructor
      · intro h; cases h
      · rintro ⟨t, ht⟩; cases ht
    | cons c cs =>
      simp only [startsWith, Bool.and_eq_true, beq_iff_eq, List.cons_append,
        List.cons.injEq, ih cs]
      constructor
      · rintro ⟨rfl, t, rfl⟩; exact ⟨t, rfl, rfl⟩
      · rintro ⟨t, rfl, rfl⟩; exact ⟨rfl, t, rfl⟩

theorem hasSubstr_iff (p : List Char) : ∀ s : List Char,
    hasSubstr p s = true ↔ ∃ pre post, s = pre ++ p ++ post := by
  intro s
  induction s with
  | nil =>
    simp only [hasSubstr, List.isEmpty_iff]
    constructor
    · rintro rfl; exact ⟨[], [], rfl⟩
    · rintro ⟨pre, post, h⟩
      have h' := h.symm
      rw [List.append_eq_nil] at h'
      exact (List.append_eq_nil.mp h'.1).2
  | cons c cs ih =>
    simp only [hasSubstr, Bool.or_eq_true, startsWith_iff, ih]
    constructor
    · rintro (⟨t, ht⟩ | ⟨pre, post, ht⟩)
      · exact ⟨[], t, by simpa using ht⟩
      · exact ⟨c :: pre, post, by simp [ht]⟩
    · rintro ⟨pre, post, h⟩
      cases pre with
      | nil =>
        left
        rw [List.nil_append] at h
        exact ⟨post, h⟩
      | cons x xs =>
        right
        rw [List.cons_append, List.cons_append] at h
        injection h with h1 h2
        exact ⟨xs, post, h2⟩

theorem hasSubstr_append_left (p a b : List Char) (h : hasSubstr p a = true) :
    hasSubstr p (a ++ b) = true := by
  rw [hasSubstr_iff] at h ⊢
  obtain ⟨pre, post, rfl⟩ := h
  exact ⟨pre, post ++ b, by simp⟩

theorem hasSubstr_append_right (p a b : List Char) (h : hasSubstr p b = true) :
    hasSubstr p (a ++ b) = true := by
  rw [hasSubstr_iff] at h ⊢
  obtain ⟨pre, post, rfl⟩ := h
  exact ⟨a ++ pre, post, by simp⟩

theorem strContains_append_of_left (a b pat : String)
    (h : strContains a pat = true) : strContains (a ++ b) pat = true := by
  unfold strContains at h ⊢
  rw [String.data_append]
  exact hasSubstr_append_left _ _ _ h

theorem strContains_append_of_right (a b pat : String)
    (h : strContains b pat = true) : strContains (a ++ b) pat = true := by
  unfold strContains at h ⊢
  rw [String.data_append]
  exact hasSubstr_append_right _ _ _ h

theorem strContains_refl (x : String) : strContains x x = true := by
  unfold strContains
  rw [hasSubstr_iff]
  exact ⟨[], [], by simp⟩

theorem strJoin_head_contains (sep x : String) (xs : List String) :
    strContains (strJoin sep (x :: xs)) x = true := by
  cases xs with
  | nil => exact strContains_refl x
  | cons y ys =>
    simp only [strJoin]
    exact strContains_append_of_left _ _ _
      (strContains_append_of_left _ _ _ (strContains_refl x))

theorem strJoin_contains (sep pat : String) : ∀ (l : List String) (x : String),
    x ∈ l → strContains x pat = true →
    strContains (strJoin sep l) pat = true := by
  intro l
  induction l with
  | nil => intro x hx; simp at hx
  | cons a as ih =>
    intro x hx hc
    cases as with
    | nil =>
      rcases List.mem_cons.mp hx with rfl | hx'
      · simpa [strJoin] using hc
      · simp at hx'
    | cons b bs =>
      rcases List.mem_cons.mp hx with rfl | hx'
      · simp only [strJoin]
        exact strContains_append_of_left _ _ _ (strContains_append_of_left _ _ _ hc)
      · simp only [strJoin]
        exact strContains_append_of_right _ _ _ (ih x hx' hc)

theorem lexLe_cons (x y : Char) (xs ys : List Char) :
    lexLe (x :: xs) (y :: ys) = true ↔
      x.toNat < y.toNat ∨ (x.toNat = y.toNat ∧ lexLe xs ys = true) := by
  simp only [lexLe]
  rcases Nat.lt_trichotomy x.toNat y.toNat with h | h | h
  · simp [h]
  · simp [h, Nat.lt_irrefl]
  · have h1 : ¬ x.toNat < y.toNat := Nat.lt_asymm h
    have h2 : x.toNat ≠ y.toNat := Nat.ne_of_gt h
    simp [h, h1, h2]

theorem lexLe_total : ∀ a b : List Char, lexLe a b = true ∨ lexLe b a = true := by
  intro a
  induction a with
  | nil => intro b; left; rfl
  | cons x xs ih =>
    intro b
    cases b with
    | nil => right; rfl
    | cons y ys =>
      rw [lexLe_cons, lexLe_cons]
      rcases Nat.lt_trichotomy x.toNat y.toNat with h | h | h
      · exact Or.inl (Or.inl h)
      · rcases ih ys with h' | h'
        · exact Or.inl (Or.inr ⟨h, h'⟩)
        · exact Or.inr (Or.inr ⟨h.symm, h'⟩)
      · exact Or.inr (Or.inl h)

theorem lexLe_trans : ∀ a b c : List Char,
    lexLe a b = true → lexLe b c = true → lexLe a c = true := by
  intro a
  induction a with
  | nil => intro b c _ _; rfl
  | cons x xs ih =>
    intro b c hab hbc
    cases b with
    | nil => simp [lexLe] at hab
    | cons y ys =>
      cases c with
      | nil => simp [lexLe] at hbc
      | cons z zs =>
        rw [lexLe_cons] at hab hbc ⊢
        rcases hab with h1 | ⟨h1, h1'⟩ <;> rcases hbc with h2 | ⟨h2, h2'⟩
        · exact Or.inl (Nat.lt_trans h1 h2)
        · exact Or.inl (h2 ▸ h1)
        · exact Or.inl (h1 ▸ h2)
        · exact Or.inr ⟨h1.trans h2, ih ys zs h1' h2'⟩

theorem strLe_total (a b : String) : strLe a b = true ∨ strLe b a = true :=
  lexLe_total a.data b.data

instance : IsTotal String (fun a b => strLe a b = true) :=
  ⟨strLe_total⟩

instance : IsTrans String (fun a b => strLe a b = true) :=
  ⟨fun a b c => lexLe_trans a.data b.data c.data⟩

theorem isEmpty_eq_decide {α : Type} (l : List α) :
    l.isEmpty = decide (l.length = 0) := by
  cases l <;> rfl

/-! ## Helper lemmas: the greedy packing loop -/

theorem packGo_flatten (tok : String → Nat) (maxTok baseTokens : Nat) :
    ∀ (entries : List String) (groups : List (List String)) (cur : List String)
      (curTokens : Nat),
      (packGo tok maxTok baseTokens entries groups cur curTokens).flatten =
        groups.flatten ++ cur ++ entries := by
  intro entries
  induction entries with
  | nil =>
    intro groups cur curTokens
    simp only [packGo]
    split
    · rename_i h; subst h; simp
    · simp
  | cons e rest ih =>
    intro groups cur curTokens
    simp only [packGo]
    split
    · rw [ih]
      simp [List.append_assoc]
    · rw [ih]
      simp [List.append_assoc]

theorem packGo_bounds (tok : String → Nat) (maxTok baseTokens : Nat) :
    ∀ (entries : List String) (groups : List (List String)) (cur : List String)
      (curTokens : Nat),
      curTokens = baseTokens + (cur.map tok).sum →
      (∀ g ∈ groups, g ≠ [] ∧ (2 ≤ g.length → baseTokens + (g.map tok).sum ≤ maxTok)) →
      (2 ≤ cur.length → curTokens ≤ maxTok) →
      ∀ g ∈ packGo tok maxTok baseTokens entries groups cur curTokens,
        g ≠ [] ∧ (2 ≤ g.length → baseTokens + (g.map tok).sum ≤ maxTok) := by
  intro entries
  induction entries with
  | nil =>
    intro groups cur curTokens hcur hgroups hbound g hg
    simp only [packGo] at hg
    split at hg
    · exact hgroups g hg
    · rename_i hne
      rcases List.mem_append.mp hg with h | h
      · exact hgroups g h
      · rw [List.mem_singleton] at h
        subst h
        exact ⟨hne, fun h2 => hcur ▸ hbound h2⟩
  | cons e rest ih =>
    intro groups cur curTokens hcur hgroups hbound g hg
    simp only [packGo] at hg
    split at hg
    · rename_i hcond
      refine ih _ _ _ (by simp) ?_ (by simp) g hg
      intro g' hg'
      rcases List.mem_append.mp hg' with h | h
      · exact hgroups g' h
      · rw [List.mem_singleton] at h
        subst h
        exact ⟨hcond.2, fun h2 => hcur ▸ hbound h2⟩
    · rename_i hcond
      refine ih _ _ _ (by simp [hcur, Nat.add_assoc]) hgroups ?_ g hg
      intro h2
      by_cases hc : cur = []
      · subst hc; simp at h2
      · have : ¬ maxTok < curTokens + tok e := fun hlt => hcond ⟨hlt, hc⟩
        exact Nat.le_of_not_lt this

/-! ## Helper lemmas: review-chunk documents -/

theorem reviewDoc_lookup_ct (r : Restaurant) (d : Detail) (pmin pmax : Nat)
    (base ct : String) (g : List String) :
    (reviewDoc r d pmin pmax base ct g).metadata.lookup "chunk_type" =
      some (MValue.str ct) := rfl

theorem buildReviewDocs_map_content (r : Restaurant) (d : Detail)
    (pmin pmax : Nat) (base : String) (k : Nat) :
    ∀ (i : Nat) (gs : List (List String)),
      (buildReviewDocs r d pmin pmax base k i gs).map Document.page_content =
        gs.map (fun g => base ++ " " ++ strJoin " | " g) := by
  intro i gs
  induction gs generalizing i with
  | nil => rfl
  | cons g rest ih => simp [buildReviewDocs, reviewDoc, ih]

theorem buildReviewDocs_mem_meta (r : Restaurant) (d : Detail)
    (pmin pmax : Nat) (base : String) (k : Nat) :
    ∀ (i : Nat) (gs : List (List String)) (doc : Document),
      doc ∈ buildReviewDocs r d pmin pmax base k i gs →
      ("restaurant_id", MValue.str r.id) ∈ doc.metadata ∧
      ∃ ct, ("chunk_type", MValue.str ct) ∈ doc.metadata ∧
        (ct = "reviews" ∨ ∃ n, 1 ≤ n ∧ ct = "reviews_part_" ++ toString n) := by
  intro i gs
  induction gs generalizing i with
  | nil => intro doc h; simp [buildReviewDocs] at h
  | cons g rest ih =>
    intro doc h
    rcases List.mem_cons.mp h with h | h
    · subst h
      refine ⟨by simp [reviewDoc], ?_⟩
      by_cases hk : k = 1
      · exact ⟨"reviews", by simp [reviewDoc, hk], Or.inl rfl⟩
      · exact ⟨"reviews_part_" ++ toString (i + 1), by simp [reviewDoc, hk],
          Or.inr ⟨i + 1, by omega, rfl⟩⟩
    · exact ih (i + 1) doc h

theorem buildReviewDocs_map_ct (r : Restaurant) (d : Detail)
    (pmin pmax : Nat) (base : String) (k : Nat) :
    ∀ (i : Nat) (gs : List (List String)),
      (buildReviewDocs r d pmin pmax base k i gs).map
          (fun doc => doc.metadata.lookup "chunk_type") =
        (List.range' i gs.length).map
          (fun j => some (MValue.str
            (if k = 1 then "reviews" else "reviews_part_" ++ toString (j + 1)))) := by
  intro i gs
  induction gs generalizing i with
  | nil => rfl
  | cons g rest ih =>
    simp only [buildReviewDocs, List.map_cons, reviewDoc_lookup_ct, List.length_cons,
      List.range'_succ]
    rw [ih (i + 1)]

theorem nonEmptyEntries_eq (d : Detail) :
    nonEmptyEntries d = (nonEmptyReviews d).map formatReview := by
  unfold nonEmptyEntries nonEmptyReviews
  induction d.reviews with
  | nil => rfl
  | cons rv rest ih =>
    by_cases h : trimStr rv.text = ""
    · simp [List.filterMap_cons, List.filter_cons, h, ih]
    · simp [List.filterMap_cons, List.filter_cons, h, ih]

theorem nonEmptyTexts_eq (d : Detail) :
    nonEmptyTexts d = (nonEmptyReviews d).map (fun rv => trimStr rv.text) := by
  unfold nonEmptyTexts nonEmptyReviews
  induction d.reviews with
  | nil => rfl
  | cons rv rest ih =>
    by_cases h : trimStr rv.text = ""
    · simp [List.filterMap_cons, List.filter_cons, h, ih]
    · simp [List.filterMap_cons, List.filter_cons, h, ih]

theorem nonEmptyEntries_nil_of_reviews_nil (d : Detail) (h : d.reviews = []) :
    nonEmptyEntries d = [] := by
  unfold nonEmptyEntries
  rw [h]
  rfl

theorem review_groups_nil (tok : String → Nat) (r : Restaurant) (d : Detail)
    (h : nonEmptyEntries d = []) : review_groups tok r d = [] := by
  unfold review_groups
  rw [h]
  rfl

/-! ## Helper lemmas: detail-fetch retry loop -/

theorem fetchAttempts_none {α : Type} (oracle : Nat → FetchResp α) :
    ∀ (remaining attempt : Nat),
      (∀ k, attempt ≤ k → k < attempt + remaining → ∀ p, oracle k ≠ FetchResp.ok p) →
      fetchAttempts oracle attempt remaining =
        (none, (List.range' attempt (remaining - 1)).map (fun k => 5 * 2 ^ k)) := by
  intro remaining
  induction remaining with
  | zero => intro attempt h; rfl
  | succ rem ih =>
    intro attempt h
    cases horacle : oracle attempt with
    | ok p => exact absurd horacle (h attempt (Nat.le_refl _) (by omega) p)
    | rateLimited =>
      by_cases hrem : rem = 0
      · subst hrem
        simp [fetchAttempts, horacle]
      · simp only [fetchAttempts, horacle, if_neg hrem]
        rw [ih (attempt + 1) (fun k h1 h2 p => h k (by omega) (by omega) p)]
        have hrem' : rem + 1 - 1 = (rem - 1) + 1 := by omega
        simp [hrem', List.range'_succ]
    | err =>
      by_cases hrem : rem = 0
      · subst hrem
        simp [fetchAttempts, horacle]
      · simp only [fetchAttempts, horacle, if_neg hrem]
        rw [ih (attempt + 1) (fun k h1 h2 p => h k (by omega) (by omega) p)]
        have hrem' : rem + 1 - 1 = (rem - 1) + 1 := by omega
        simp [hrem', List.range'_succ]

theorem fetchAttempts_ok {α : Type} (oracle : Nat → FetchResp α) :
    ∀ (remaining attempt j : Nat) (p : α),
      attempt ≤ j → j < attempt + remaining →
      oracle j = FetchResp.ok p →
      (∀ k, attempt ≤ k → k < j → ∀ q, oracle k ≠ FetchResp.ok q) →
      fetchAttempts oracle attempt remaining =
        (some p, (List.range' attempt (j - attempt)).map (fun k => 5 * 2 ^ k)) := by
  intro remaining
  induction remaining with
  | zero => intro attempt j p h1 h2 _ _; omega
  | succ rem ih =>
    intro attempt j p h1 h2 hj hfail
    by_cases hja : j = attempt
    · subst hja
      simp [fetchAttempts, hj, Nat.sub_self]
    · have hlt : attempt < j := by omega
      have hrem : rem ≠ 0 := by omega
      have hj' : j - attempt = (j - (attempt + 1)) + 1 := by omega
      cases horacle : oracle attempt with
      | ok q => exact absurd horacle (hfail attempt (Nat.le_refl _) hlt q)
      | rateLimited =>
        simp only [fetchAttempts, horacle, if_neg hrem]
        rw [ih (attempt + 1) j p (by omega) (by omega) hj
          (fun k hk1 hk2 q => hfail k (by omega) hk2 q)]
        simp [hj', List.range'_succ]
      | err =>
        simp only [fetchAttempts, horacle, if_neg hrem]
        rw [ih (attempt + 1) j p (by omega) (by omega) hj
          (fun k hk1 hk2 q => hfail k (by omega) hk2 q)]
        simp [hj', List.range'_succ]

/-! ## Helper lemmas: pagination loop -/

theorem fetchGo_acc {α : Type} (s : List α) (limit : Nat) (hl : 0 < limit) :
    ∀ (fuel offset : Nat) (acc : List α) (reqs : List Nat),
      acc.length = offset →
      s.length ≤ offset + fuel * limit →
      (fetchGo s limit fuel offset acc reqs).1 = acc ++ s.drop offset := by
  intro fuel
  induction fuel with
  | zero =>
    intro offset acc reqs hacc hfuel
    have : s.drop offset = [] := List.drop_eq_nil_of_le (by omega)
    simp [fetchGo, this]
  | succ fuel ih =>
    intro offset acc reqs hacc hfuel
    simp only [fetchGo]
    by_cases hp : ((s.drop offset).take limit).isEmpty
    · rw [if_pos hp]
      rw [List.isEmpty_iff] at hp
      rcases List.take_eq_nil_iff.mp hp with h | h
      · omega
      · rw [h]
        simp
    · rw [if_neg hp]
      have hT1 : ((s.drop offset).take limit).length ≤ limit := by
        rw [List.length_take]
        exact min_le_left _ _
      by_cases hstop : s.length ≤ (acc ++ (s.drop offset).take limit).length ∨
          ((s.drop offset).take limit).length < limit
      · rw [if_pos hstop]
        have htake : (s.drop offset).take limit = s.drop offset := by
          rcases Nat.le_total (s.drop offset).length limit with hc | hc
          · exact List.take_of_length_le hc
          · have hTlen : ((s.drop offset).take limit).length = limit := by
              rw [List.length_take]
              exact min_eq_left hc
            apply List.take_of_length_le
            rw [List.length_drop]
            rcases hstop with h | h
            · rw [List.length_append, hacc, hTlen] at h
              omega
            · rw [hTlen] at h
              omega
        rw [htake]
      · rw [if_neg hstop]
        push_neg at hstop
        have hfull : ((s.drop offset).take limit).length = limit := by
          have := hstop.2
          omega
        rw [ih (offset + limit) (acc ++ (s.drop offset).take limit) (reqs ++ [offset])
          (by rw [List.length_append, hacc, hfull])
          (by
            have hmul : (fuel + 1) * limit = fuel * limit + limit := by ring
            omega)]
        rw [List.append_assoc]
        congr 1
        have : s.drop (offset + limit) = ((s.drop offset).drop limit) := by
          rw [List.drop_drop]
        rw [this, List.take_append_drop]

theorem fetchGo_reqs_congr {α β : Type} (s : List α) (s' : List β) (limit : Nat)
    (hs : s.length = s'.length) :
    ∀ (fuel offset : Nat) (acc : List α) (acc' : List β) (reqs : List Nat),
      acc.length = acc'.length →
      (fetchGo s limit fuel offset acc reqs).2 =
        (fetchGo s' limit fuel offset acc' reqs).2 := by
  intro fuel
  induction fuel with
  | zero => intro offset acc acc' reqs hacc; rfl
  | succ fuel ih =>
    intro offset acc acc' reqs hacc
    simp only [fetchGo]
    have hplen : ((s.drop offset).take limit).length =
        ((s'.drop offset).take limit).length := by
      simp [hs]
    have hemp : ((s.drop offset).take limit).isEmpty =
        ((s'.drop offset).take limit).isEmpty := by
      rw [isEmpty_eq_decide, isEmpty_eq_decide, hplen]
    by_cases hp : ((s.drop offset).take limit).isEmpty
    · have hp' : ((s'.drop offset).take limit).isEmpty = true := by
        rw [← hemp]; exact hp
      rw [if_pos hp, if_pos hp']
    · have hp' : ¬ ((s'.drop offset).take limit).isEmpty = true := by
        rw [← hemp]; exact hp
      rw [if_neg hp, if_neg hp']
      have hcond : (s.length ≤ (acc ++ (s.drop offset).take limit).length ∨
          ((s.drop offset).take limit).length < limit) ↔
          (s'.length ≤ (acc' ++ (s'.drop offset).take limit).length ∨
          ((s'.drop offset).take limit).length < limit) := by
        rw [List.length_append, List.length_append, hacc, hplen, hs]
      by_cases hstop : s.length ≤ (acc ++ (s.drop offset).take limit).length ∨
          ((s.drop offset).take limit).length < limit
      · rw [if_pos hstop, if_pos (hcond.mp hstop)]
      · rw [if_neg hstop, if_neg (fun h => hstop (hcond.mpr h))]
        exact ih (offset + limit) _ _ _ (by simp [hacc, hplen, hs])

/-! ## Helper lemmas: batch upsert -/

theorem upsertGo_nil {α : Type} (bs fuel : Nat) :
    upsertGo (α := α) bs fuel [] = [] := by
  cases fuel <;> rfl

theorem upsertGo_flatten {α : Type} (bs : Nat) (hbs : 0 < bs) :
    ∀ (fuel : Nat) (l : List α), l.length ≤ fuel →
      (upsertGo bs fuel l).flatten = l := by
  intro fuel
  induction fuel with
  | zero =>
    intro l h
    have : l = [] := List.eq_nil_of_length_eq_zero (by omega)
    subst this
    rfl
  | succ fuel ih =>
    intro l h
    cases l with
    | nil => rfl
    | cons c cs =>
      simp only [upsertGo, List.flatten_cons]
      rw [ih (List.drop bs (c :: cs)) (by rw [List.length_drop]; omega)]
      exact List.take_append_drop bs (c :: cs)

theorem upsertGo_map_length_congr {α β : Type} (bs : Nat) :
    ∀ (fuel : Nat) (l : List α) (m : List β), l.length = m.length →
      (upsertGo bs fuel l).map List.length = (upsertGo bs fuel m).map List.length := by
  intro fuel
  induction fuel with
  | zero => intro l m h; rfl
  | succ fuel ih =>
    intro l m h
    cases l with
    | nil =>
      cases m with
      | nil => rfl
      | cons b m' => simp at h
    | cons a l' =>
      cases m with
      | nil => simp at h
      | cons b m' =>
        simp only [upsertGo, List.map_cons, List.length_take]
        rw [h, ih (List.drop bs (a :: l')) (List.drop bs (b :: m')) (by simp [h])]

theorem upsertGo_mem {α : Type} (bs : Nat) (hbs : 0 < bs) :
    ∀ (fuel : Nat) (l : List α) (b : List α), b ∈ upsertGo bs fuel l →
      b ≠ [] ∧ b.length ≤ bs := by
  intro fuel
  induction fuel with
  | zero => intro l b h; simp [upsertGo] at h
  | succ fuel ih =>
    intro l b h
    cases l with
    | nil => simp [upsertGo] at h
    | cons c cs =>
      simp only [upsertGo] at h
      rcases List.mem_cons.mp h with h | h
      · subst h
        constructor
        · intro hnil
          rcases List.take_eq_nil_iff.mp hnil with h | h
          · omega
          · cases h
        · simp
      · exact ih _ b h

theorem upsertGo_dropLast {α : Type} (bs : Nat) :
    ∀ (fuel : Nat) (l : List α) (b : List α), b ∈ (upsertGo bs fuel l).dropLast →
      b.length = bs := by
  intro fuel
  induction fuel with
  | zero => intro l b h; simp [upsertGo] at h
  | succ fuel ih =>
    intro l b h
    cases l with
    | nil => simp [upsertGo] at h
    | cons c cs =>
      simp only [upsertGo] at h
      cases hrest : upsertGo bs fuel (List.drop bs (c :: cs)) with
      | nil => rw [hrest] at h; simp at h
      | cons x xs =>
        rw [hrest] at h
        have hdrop : List.drop bs (c :: cs) ≠ [] := by
          intro hd
          rw [hd, upsertGo_nil] at hrest
          cases hrest
        have hlen : bs < (c :: cs).length := by
          have := List.length_drop bs (c :: cs)
          have hpos : 0 < (List.drop bs (c :: cs)).length :=
            List.length_pos.mpr hdrop
          omega
        rcases List.mem_cons.mp (by simpa [List.dropLast] using h) with h' | h'
        · subst h'
          simp only [List.length_take]
          omega
        · exact ih _ b (by rw [hrest]; simpa [List.dropLast] using h')

theorem runBatches_all_ok {α ε : Type} (client : List α → Except ε Unit) :
    ∀ batches : List (List α), (∀ b ∈ batches, client b = Except.ok ()) →
      runBatches client batches = Except.ok batches.length := by
  intro batches
  induction batches with
  | nil => intro _; rfl
  | cons b rest ih =>
    intro h
    simp only [runBatches]
    rw [h b (List.mem_cons_self b rest),
      ih (fun b' hb' => h b' (List.mem_cons_of_mem _ hb'))]
    rfl

theorem runBatches_error {α ε : Type} (client : List α → Except ε Unit) :
    ∀ (pre : List (List α)) (b : List α) (post : List (List α)) (e : ε),
      (∀ b' ∈ pre, client b' = Except.ok ()) →
      client b = Except.error e →
      runBatches client (pre ++ b :: post) = Except.error e := by
  intro pre
  induction pre with
  | nil =>
    intro b post e _ herr
    simp only [List.nil_append, runBatches]
    rw [herr]
  | cons p pre' ih =>
    intro b post e hpre herr
    simp only [List.cons_append, List.append_eq, runBatches]
    rw [hpre p (List.mem_cons_self p pre'),
      ih b post e (fun b' hb' => hpre b' (List.mem_cons_of_mem _ hb')) herr]

/-! ## Helper lemmas: price extraction -/

theorem priceStep_preserve (st : List String × Nat × Nat) (rv : Review)
    (h : st.2.1 ≠ 0) : (priceStep st rv).2 = st.2 := by
  unfold priceStep
  cases hctx : rv.reviewContext.lookup "Price per person" with
  | none => rfl
  | some v =>
    simp only []
    rw [if_neg (by rintro ⟨_, h2⟩; exact h h2)]

theorem priceFold_stable : ∀ (rvs : List Review) (st : List String × Nat × Nat),
    st.2.1 ≠ 0 → (rvs.foldl priceStep st).2 = st.2 := by
  intro rvs
  induction rvs with
  | nil => intro st _; rfl
  | cons rv rest ih =>
    intro st h
    rw [List.foldl_cons]
    have hpres := priceStep_preserve st rv h
    have hfst : (priceStep st rv).2.1 = st.2.1 := congrArg Prod.fst hpres
    rw [ih (priceStep st rv) (by rw [hfst]; exact h), hpres]

/-! ## Claim theorems -/

set_option maxRecDepth 100000 in
/-- C1 counterexample: the claim is false as stated.  For the single
non-empty review text `"good | bad"` — which itself contains the `" | "`
separator — the lone emitted chunk's page content splits into two pieces,
so the split-and-strip recovery yields `["good", "bad"]` instead of the
input's one review text `["good | bad"]`. -/
theorem C1_review_text_recovery_cex :
    (create_review_chunks charCountTok c1Restaurant c1Detail).length = 1 ∧
    ((create_review_chunks charCountTok c1Restaurant c1Detail).map
      (fun doc => recoverTexts doc.page_content)).flatten = ["good", "bad"] ∧
    nonEmptyTexts c1Detail = ["good | bad"] ∧
    (["good", "bad"] : List String) ≠ ["good | bad"] := by decide

/-- C1 (amended): for every restaurant, if it has zero reviews with
non-empty text then `create_review_chunks` returns the empty list; otherwise
the per-chunk entry lists of the greedy packing concatenate to exactly the
formatted entries of the non-empty reviews — each exactly once, in original
input order, with no review duplicated or omitted across parts; each entry
is the `"Review by <name> (<rating>/5): "` prefix followed by the stripped
review text; and each emitted chunk's page content is the preamble plus its
entries joined by `" | "`.  (Recovery by re-splitting the joined content on
`" | "` fails exactly when a review text contains the separator, which is
what the counterexample exhibits.) -/
theorem C1_review_text_recovery (tok : String → Nat) (r : Restaurant) (d : Detail) :
    (nonEmptyEntries d = [] → create_review_chunks tok r d = []) ∧
    (review_groups tok r d).flatten = nonEmptyEntries d ∧
    nonEmptyEntries d = (nonEmptyReviews d).map formatReview ∧
    nonEmptyTexts d = (nonEmptyReviews d).map (fun rv => trimStr rv.text) ∧
    (∀ rv : Review, formatReview rv = reviewTag rv ++ trimStr rv.text) ∧
    (create_review_chunks tok r d).map Document.page_content =
      (review_groups tok r d).map
        (fun g => base_content r d ++ " " ++ strJoin " | " g) := by
  refine ⟨?_, ?_, nonEmptyEntries_eq d, nonEmptyTexts_eq d, fun rv => rfl, ?_⟩
  · intro h
    simp [create_review_chunks, h]
  · unfold review_groups
    rw [packGo_flatten]
    simp
  · by_cases hrev : d.reviews = []
    · have hent : nonEmptyEntries d = [] := nonEmptyEntries_nil_of_reviews_nil d hrev
      rw [review_groups_nil tok r d hent]
      unfold create_review_chunks
      rw [if_pos hrev]
      rfl
    · by_cases hent : nonEmptyEntries d = []
      · rw [review_groups_nil tok r d hent]
        unfold create_review_chunks
        rw [if_neg hrev, if_pos hent]
        rfl
      · unfold create_review_chunks
        rw [if_neg hrev, if_neg hent]
        exact buildReviewDocs_map_content r d _ _ _ _ 0 (review_groups tok r d)

/-- C1 witness: the zero-non-empty-review case of the amended claim at a
concrete input. -/
theorem C1_review_text_recovery_witness :
    create_review_chunks charCountTok c1Restaurant c1EmptyDetail = [] :=
  (C1_review_text_recovery charCountTok c1Restaurant c1EmptyDetail).1 (by decide)

/-- C2: every chunk produced by the greedy packing of
`create_review_chunks` is non-empty; a chunk's running token count
(preamble plus its accumulated entries) is at least the preamble count plus
the count of any — hence of its largest — contained entry, so a single
oversized review is never truncated below that bound; a chunk holding two
or more entries never exceeds the 800-token budget (only a lone oversized
review can push a chunk past it); and the chunks partition the formatted
entries, so every review is emitted whole, in exactly one chunk, in input
order. -/
theorem C2_greedy_packing (tok : String → Nat) (r : Restaurant) (d : Detail)
    (g : List String) (hg : g ∈ review_groups tok r d) :
    g ≠ [] ∧
    (∀ e ∈ g, tok (base_content r d) + tok e ≤
      tok (base_content r d) + (g.map tok).sum) ∧
    (2 ≤ g.length → tok (base_content r d) + (g.map tok).sum ≤ 800) ∧
    (review_groups tok r d).flatten = nonEmptyEntries d := by
  have hb := packGo_bounds tok 800 (tok (base_content r d)) (nonEmptyEntries d)
    [] [] (tok (base_content r d)) (by simp) (by simp) (by simp) g hg
  refine ⟨hb.1, ?_, hb.2, ?_⟩
  · intro e he
    have hle : tok e ≤ (g.map tok).sum :=
      List.single_le_sum (fun x _ => Nat.zero_le x) _ (List.mem_map.mpr ⟨e, he, rfl⟩)
    omega
  · unfold review_groups
    rw [packGo_flatten]
    simp

set_option maxRecDepth 100000 in
/-- C2 witness: the packing evaluated at a one-review input. -/
theorem C2_greedy_packing_witness :
    (["Review by Bob (5/5): Nice"] : List String) ≠ [] ∧
    (review_groups charCountTok c2Restaurant c2Detail).flatten =
      nonEmptyEntries c2Detail :=
  ⟨(C2_greedy_packing charCountTok c2Restaurant c2Detail
      ["Review by Bob (5/5): Nice"] (by decide)).1,
   (C2_greedy_packing charCountTok c2Restaurant c2Detail
      ["Review by Bob (5/5): Nice"] (by decide)).2.2.2⟩

/-- C3: evaluation of `extract_parking_intelligence` at the failing input.
The source tests `'difficult' in value` before `'somewhat difficult' in
value`, and every string containing "somewhat difficult" contains
"difficult", so the moderate branch is unreachable: the context value
"somewhat difficult" yields parking_difficulty "difficult", not "moderate"
as the claim (and the evidently intended mapping) says.  The
"Difficult to find a spot" → "difficult" part of the claim does hold. -/
theorem C3_parking_difficulty_eval :
    (extract_parking_intelligence c3SomewhatDetail).2 = "difficult" ∧
    (extract_parking_intelligence c3DifficultDetail).2 = "difficult" ∧
    ("difficult" : String) ≠ "moderate" := by decide

/-- C4 counterexample: the claim is false as stated.  With no average
price and two "Price per person" contexts, "0" then "R150–R250", the first
successfully parsed values are price_min = 0 and price_max = 50 (the
min + 50 default), yet the final result is (150, 250): the first parsed
values are overwritten because the code guards with `price_min == 0`,
conflating "parsed 0" with "not yet set". -/
theorem C4_price_first_parse_cex :
    (priceStep ([], 0, 0) c4FirstReview).2 = (0, 50) ∧
    findallDigits "0" ≠ [] ∧
    (extract_price_intelligence c4OverwriteDetail).2 = (150, 250) ∧
    ((0, 50) : Nat × Nat) ≠ (150, 250) := by decide

/-- C4 (amended): price_min and price_max are never overwritten once
price_min holds a non-zero value (a review's "Price per person" context is
parsed only while price_min = 0, so a parse that yielded 0 can still be
replaced); the detail's average-price field is parsed first with price_max
defaulting to price_min + 100 when only one number is present, and a price
range established there suppresses the review-context parse; in particular,
with no base/average price and a review context "Price per person:
R150–R250" the result has price_min = 150 and price_max = 250. -/
theorem C4_price_first_parse :
    (∀ (rvs : List Review) (st : List String × Nat × Nat), st.2.1 ≠ 0 →
      (rvs.foldl priceStep st).2 = st.2) ∧
    (extract_price_intelligence c4RangeDetail).2 = (150, 250) ∧
    (extract_price_intelligence c4AvgDetail).2 = (120, 220) ∧
    (extract_price_intelligence c4BothDetail).2 = (120, 220) :=
  ⟨priceFold_stable, by decide, by decide, by decide⟩

/-- C4 witness: stability of an established non-zero price range at a
concrete input. -/
theorem C4_price_first_parse_witness :
    (([c4SecondReview].foldl priceStep (["x"], 99, 120)).2 : Nat × Nat) = (99, 120) :=
  C4_price_first_parse.1 [c4SecondReview] (["x"], 99, 120) (by decide)

/-- C5: every document produced by `process_restaurant` when detail data is
available carries metadata containing `restaurant_id` (equal to the source
restaurant's id) and `chunk_type`, where `chunk_type` is one of overview,
operational, parking_location, features, reviews, or `reviews_part_N` with
N ≥ 1; and the review chunks' types are exactly `reviews` when there is a
single review chunk and `reviews_part_1 … reviews_part_k`, numbered
consecutively from 1 in emission order, when the reviews are split over
k > 1 chunks. -/
theorem C5_chunk_metadata (tok : String → Nat) (r : Restaurant) (d : Detail) :
    (∀ doc ∈ process_restaurant tok r (some d),
      ("restaurant_id", MValue.str r.id) ∈ doc.metadata ∧
      ∃ ct, ("chunk_type", MValue.str ct) ∈ doc.metadata ∧
        (ct = "overview" ∨ ct = "operational" ∨ ct = "parking_location" ∨
         ct = "features" ∨ ct = "reviews" ∨
         ∃ n, 1 ≤ n ∧ ct = "reviews_part_" ++ toString n)) ∧
    ((create_review_chunks tok r d).map
        (fun doc => doc.metadata.lookup "chunk_type") =
      if (review_groups tok r d).length = 1 then [some (MValue.str "reviews")]
      else (List.range (review_groups tok r d).length).map
        (fun i => some (MValue.str ("reviews_part_" ++ toString (i + 1))))) := by
  constructor
  · intro doc hdoc
    simp only [process_restaurant, List.mem_append, List.mem_cons,
      List.not_mem_nil, or_false] at hdoc
    rcases hdoc with ((rfl | rfl | rfl) | hmem) | rfl
    · exact ⟨by simp [create_overview_chunk], "overview",
        by simp [create_overview_chunk], by tauto⟩
    · exact ⟨by simp [create_operational_chunk], "operational",
        by simp [create_operational_chunk], by tauto⟩
    · exact ⟨by simp [create_parking_location_chunk], "parking_location",
        by simp [create_parking_location_chunk], by tauto⟩
    · unfold create_review_chunks at hmem
      split at hmem
      · simp at hmem
      · split at hmem
        · simp at hmem
        · obtain ⟨h1, ct, hct, hdisj⟩ :=
            buildReviewDocs_mem_meta r d _ _ _ _ 0 (review_groups tok r d) doc hmem
          exact ⟨h1, ct, hct, by tauto⟩
    · exact ⟨by simp [create_features_chunk], "features",
        by simp [create_features_chunk], by tauto⟩
  · by_cases hrev : d.reviews = []
    · have hent := nonEmptyEntries_nil_of_reviews_nil d hrev
      have hg := review_groups_nil tok r d hent
      unfold create_review_chunks
      rw [if_pos hrev, hg]
      simp
    · by_cases hent : nonEmptyEntries d = []
      · have hg := review_groups_nil tok r d hent
        unfold create_review_chunks
        rw [if_neg hrev, if_pos hent, hg]
        simp
      · unfold create_review_chunks
        rw [if_neg hrev, if_neg hent,
          buildReviewDocs_map_ct r d _ _ _ _ 0 (review_groups tok r d)]
        by_cases hk : (review_groups tok r d).length = 1
        · rw [if_pos hk, hk]
          simp [List.range']
        · rw [if_neg hk, List.range_eq_range']
          simp [hk]

set_option maxRecDepth 100000 in
/-- C5 witness: the overview chunk of a concrete restaurant carries its
restaurant_id. -/
theorem C5_chunk_metadata_witness :
    ("restaurant_id", MValue.str "w5") ∈
      (create_overview_chunk w5Restaurant w5Detail).metadata :=
  ((C5_chunk_metadata charCountTok w5Restaurant w5Detail).1
    (create_overview_chunk w5Restaurant w5Detail) (by decide)).1

/-- C6: `fetch_detailed_restaurant` never propagates an error.  If every
one of the five attempts fails (HTTP 429 or any other error), it returns
`none` — "no detail available" — after backoff sleeps of exactly
5, 10, 20, 40 (5·2^attempt between consecutive attempts, none after the
last); if attempt j is the first success its payload is returned after the
j backoff sleeps 5·2^0 … 5·2^(j−1); and the caller `process_restaurant`
turns a `none` detail into zero chunks, so the pipeline continues. -/
theorem C6_fetch_detail_retries {α : Type} (oracle : Nat → FetchResp α) :
    ((∀ k, k < 5 → ∀ p, oracle k ≠ FetchResp.ok p) →
      fetch_detailed_restaurant oracle = (none, [5, 10, 20, 40])) ∧
    (∀ (j : Nat) (p : α), j < 5 → oracle j = FetchResp.ok p →
      (∀ k, k < j → ∀ q, oracle k ≠ FetchResp.ok q) →
      fetch_detailed_restaurant oracle =
        (some p, (List.range j).map (fun k => 5 * 2 ^ k))) ∧
    (∀ (tok : String → Nat) (r : Restaurant), process_restaurant tok r none = []) := by
  refine ⟨?_, ?_, fun tok r => rfl⟩
  · intro h
    unfold fetch_detailed_restaurant
    rw [fetchAttempts_none oracle 5 0 (fun k _ h2 p => h k (by omega) p)]
    exact congrArg (Prod.mk (none : Option α)) (by decide)
  · intro j p hj hok hfail
    unfold fetch_detailed_restaurant
    rw [fetchAttempts_ok oracle 5 0 j p (Nat.zero_le j) (by omega) hok
      (fun k _ h2 q => hfail k h2 q)]
    rw [List.range_eq_range']
    simp

/-- C6 witness: an always-failing oracle exhausts the five attempts, sleeps
5, 10, 20, 40, and yields no detail. -/
theorem C6_fetch_detail_retries_witness :
    fetch_detailed_restaurant (fun _ => (FetchResp.err : FetchResp Unit)) =
      (none, [5, 10, 20, 40]) :=
  (C6_fetch_detail_retries (fun _ => FetchResp.err)).1
    (fun _ _ _ h => FetchResp.noConfusion h)

set_option maxRecDepth 100000 in
/-- C7: `fetch_restaurant_data` returns the server's full summary list in
server order, and against a server reporting total = 120 it issues exactly
three list requests, at offsets 0, 50 and 100. -/
theorem C7_pagination {α : Type} (s : List α) :
    (fetch_restaurant_data s).1 = s ∧
    (s.length = 120 → (fetch_restaurant_data s).2 = [0, 50, 100]) := by
  constructor
  · unfold fetch_restaurant_data
    rw [fetchGo_acc s 50 (by omega) (s.length + 1) 0 [] [] rfl
      (by
        have hmul : (s.length + 1) * 50 = 50 * s.length + 50 := by ring
        omega)]
    simp
  · intro h
    unfold fetch_restaurant_data
    rw [h]
    rw [fetchGo_reqs_congr s (List.range 120) 50 (by simp [h]) 121 0 [] [] [] rfl]
    decide

/-- C7 witness: the pagination run against a concrete 120-element server. -/
theorem C7_pagination_witness :
    (fetch_restaurant_data (List.range 120)).2 = [0, 50, 100] :=
  (C7_pagination (List.range 120)).2 (by simp)

set_option maxRecDepth 100000 in
/-- C8: `upsert_documents` partitions the input into contiguous batches in
input order — their concatenation is the input, every batch is non-empty
and at most 50 documents, every batch but the last is exactly 50 — for 237
documents the submission sizes are [50, 50, 50, 50, 37] (5 calls); an
all-successful client is called once per batch, and a submission error on
any batch — in particular one reached after earlier batches were submitted
successfully — is propagated to the caller as fatal. -/
theorem C8_batch_upsert {α : Type} (docs : List α) :
    (upsert_documents docs 50).flatten = docs ∧
    (∀ b ∈ upsert_documents docs 50, b ≠ [] ∧ b.length ≤ 50) ∧
    (∀ b ∈ (upsert_documents docs 50).dropLast, b.length = 50) ∧
    (docs.length = 237 →
      (upsert_documents docs 50).map List.length = [50, 50, 50, 50, 37]) ∧
    (∀ (ε : Type) (client : List α → Except ε Unit),
      (∀ b, client b = Except.ok ()) →
        upsert_run client docs 50 = Except.ok (upsert_documents docs 50).length) ∧
    (∀ (ε : Type) (client : List α → Except ε Unit) (e : ε)
        (pre : List (List α)) (b : List α) (post : List (List α)),
      upsert_documents docs 50 = pre ++ b :: post →
      (∀ b' ∈ pre, client b' = Except.ok ()) →
      client b = Except.error e →
      upsert_run client docs 50 = Except.error e) := by
  refine ⟨?_, ?_, ?_, ?_, ?_, ?_⟩
  · exact upsertGo_flatten 50 (by omega) docs.length docs (Nat.le_refl _)
  · exact fun b hb => upsertGo_mem 50 (by omega) docs.length docs b hb
  · exact fun b hb => upsertGo_dropLast 50 docs.length docs b hb
  · intro h
    unfold upsert_documents
    rw [h, upsertGo_map_length_congr 50 237 docs (List.range 237) (by simp [h])]
    decide
  · intro ε client hc
    exact runBatches_all_ok client _ (fun b _ => hc b)
  · intro ε client e pre b post hsplit hpre herr
    unfold upsert_run
    rw [hsplit]
    exact runBatches_error client pre b post e hpre herr

set_option maxRecDepth 100000 in
/-- C8 witness: the batch sizes for a concrete 237-document input, and a
client error on the second batch of a concrete 120-document input — after
the first batch succeeded — propagating to the caller. -/
theorem C8_batch_upsert_witness :
    (upsert_documents (List.range 237) 50).map List.length = [50, 50, 50, 50, 37] ∧
    upsert_run w8Client (List.range 120) 50 = Except.error 7 :=
  ⟨(C8_batch_upsert (List.range 237)).2.2.2.1 (by simp),
   (C8_batch_upsert (List.range 120)).2.2.2.2.2 Nat w8Client 7
     [(List.range 120).take 50] (((List.range 120).drop 50).take 50)
     [((List.range 120).drop 50).drop 50]
     (by decide)
     (by
       intro b' hb'
       rw [List.mem_singleton] at hb'
       subst hb'
       rfl)
     (by rfl)⟩

/-- C9: if the opening-hours list has an entry for day "Friday" whose
hours string contains "11 pm" (case-insensitively, one of the late tokens)
and no other day's hours string matches any late token, then the
operational chunk's metadata has open_late = true and its page content
contains the clause naming Friday. -/
theorem C9_open_late_friday (r : Restaurant) (d : Detail)
    (h1 : ∃ e ∈ d.openingHours, e.day = "Friday" ∧
      strContains (lowerStr e.hours) "11 pm" = true)
    (h2 : ∀ e ∈ d.openingHours, e.day ≠ "Friday" →
      ∀ t ∈ lateTokens, strContains (lowerStr e.hours) t = false) :
    ("open_late", MValue.bool true) ∈ (create_operational_chunk r d).metadata ∧
    strContains (create_operational_chunk r d).page_content "Friday" = true := by
  obtain ⟨e, he, hday, h11⟩ := h1
  have hpred : (lateTokens.any fun t => strContains (lowerStr e.hours) t) = true := by
    rw [List.any_eq_true]
    exact ⟨"11 pm", by simp [lateTokens], h11⟩
  have hmemF : "Friday" ∈ lateDays d := by
    unfold lateDays
    exact List.mem_map.mpr ⟨e, List.mem_filter.mpr ⟨he, hpred⟩, hday⟩
  have hne : lateDays d ≠ [] := fun hn => by rw [hn] at hmemF; cases hmemF
  have hallF : ∀ x ∈ lateDays d, x = "Friday" := by
    intro x hx
    unfold lateDays at hx
    obtain ⟨di, hdi, rfl⟩ := List.mem_map.mp hx
    have hdi' := List.mem_filter.mp hdi
    by_contra hne'
    obtain ⟨t, ht, htc⟩ := List.any_eq_true.mp hdi'.2
    have hfalse := h2 di hdi'.1 hne' t ht
    rw [hfalse] at htc
    exact Bool.noConfusion htc
  have hopen : d.openingHours ≠ [] := fun hn => by rw [hn] at he; cases he
  have hval : (if d.openingHours = [] then false else decide (lateDays d ≠ [])) = true := by
    rw [if_neg hopen]
    exact decide_eq_true hne
  constructor
  · simp only [create_operational_chunk]
    rw [hval]
    simp
  · simp only [create_operational_chunk]
    apply strJoin_contains " " "Friday" _
      ("Open late for dining on " ++ strJoin ", " ((lateDays d).take 3) ++ ".")
    · simp [hopen, hne]
    · obtain ⟨x, xs, hx⟩ : ∃ x xs, lateDays d = x :: xs := by
        cases hld : lateDays d with
        | nil => exact absurd hld hne
        | cons x xs => exact ⟨x, xs, rfl⟩
      have hxF : x = "Friday" := hallF x (by rw [hx]; exact List.mem_cons_self x xs)
      rw [hx, hxF]
      have htake : (("Friday" : String) :: xs).take 3 = "Friday" :: xs.take 2 := rfl
      rw [htake]
      apply strContains_append_of_left
      apply strContains_append_of_right
      exact strJoin_head_contains ", " "Friday" (xs.take 2)

set_option maxRecDepth 100000 in
/-- C9 witness: a concrete detail whose only opening-hours entry is Friday
with "11 PM" in its hours string. -/
theorem C9_open_late_friday_witness :
    ("open_late", MValue.bool true) ∈
      (create_operational_chunk w9Restaurant w9Detail).metadata ∧
    strContains (create_operational_chunk w9Restaurant w9Detail).page_content
      "Friday" = true :=
  C9_open_late_friday w9Restaurant w9Detail (by decide) (by decide)

/-- C10: `convert_json_to_csv` derives the header from only the first
min(100, N) restaurants — the header is the sorted (code-point
lexicographic) duplicate-free union of the flattened keys of exactly those
sampled records; every restaurant yields exactly one output row; each row
holds exactly the header's columns, so a flattened field occurring only in
restaurants after the sample is silently omitted from every row, with no
error raised (the conversion is total). -/
theorem C10_csv_header_sampling {α β : Type} (flatten : α → List (String × β))
    (rs : List α) (h : rs ≠ []) :
    convert_json_to_csv flatten rs = some (csvColumns flatten rs, csvRows flatten rs) ∧
    (csvRows flatten rs).length = rs.length ∧
    (∀ row ∈ csvRows flatten rs, row.map Prod.fst = csvColumns flatten rs) ∧
    List.Sorted (fun a b => strLe a b = true) (csvColumns flatten rs) ∧
    (csvColumns flatten rs).Nodup ∧
    (∀ k, k ∈ csvColumns flatten rs ↔
      ∃ r ∈ rs.take (min 100 rs.length), k ∈ (flatten r).map Prod.fst) ∧
    (∀ (k : String) (v : Option β), k ∉ csvColumns flatten rs →
      ∀ row ∈ csvRows flatten rs, (k, v) ∉ row) := by
  refine ⟨?_, by simp [csvRows], ?_, ?_, ?_, ?_, ?_⟩
  · unfold convert_json_to_csv
    rw [if_neg (fun hh => h (List.isEmpty_iff.mp hh))]
  · intro row hrow
    obtain ⟨r0, _, rfl⟩ := List.mem_map.mp hrow
    rw [List.map_map]
    have hcomp : (Prod.fst ∘ fun c => (c, (flatten r0).lookup c)) =
        fun c : String => c := rfl
    rw [hcomp, List.map_id']
  · exact List.sorted_insertionSort _ _
  · exact (List.perm_insertionSort _ _).nodup_iff.mpr (List.nodup_dedup _)
  · intro k
    unfold csvColumns
    rw [(List.perm_insertionSort _ _).mem_iff, List.mem_dedup, List.mem_flatten]
    constructor
    · rintro ⟨l, hl, hk⟩
      obtain ⟨r0, hr0, rfl⟩ := List.mem_map.mp hl
      exact ⟨r0, hr0, hk⟩
    · rintro ⟨r0, hr0, hk⟩
      exact ⟨(flatten r0).map Prod.fst, List.mem_map.mpr ⟨r0, hr0, rfl⟩, hk⟩
  · intro k v hk row hrow hkv
    obtain ⟨r0, _, rfl⟩ := List.mem_map.mp hrow
    apply hk
    have : k ∈ ((csvColumns flatten rs).map
        (fun c => (c, (flatten r0).lookup c))).map Prod.fst :=
      List.mem_map.mpr ⟨(k, v), hkv, rfl⟩
    rw [List.map_map] at this
    simpa using this

/-- C10 witness: the converter evaluated at a concrete two-record input. -/
theorem C10_csv_header_sampling_witness :
    convert_json_to_csv natFlat [2, 1] =
      some (csvColumns natFlat [2, 1], csvRows natFlat [2, 1]) ∧
    (csvRows natFlat [2, 1]).length = ([2, 1] : List Nat).length :=
  ⟨(C10_csv_header_sampling natFlat [2, 1] (by decide)).1,
   (C10_csv_header_sampling natFlat [2, 1] (by decide)).2.1⟩
